import Mathlib

/-!
Verification development for the series catalog manager
(`plugin.video.scp/series_manager.py`).

The Python source is shallowly embedded below.  Text is modelled as
`String`/`List Char`.  The `unidecode` transliteration and Unicode
`lower()`/`\w` behaviour are modelled by explicit finite tables covering
ASCII plus the Latin diacritic range the plugin deals with (Czech titles);
on ASCII the model agrees with Python exactly.  The store is modelled as an
association list from file name to parsed file content (the textual JSON
layer is abstracted to JSON values, since `json.loads` inverts `json.dumps`
on the value level); Python's object graph, where mutation creates sharing
and cycles, is modelled by an explicit heap of addressed values.
-/

set_option autoImplicit false

namespace SeriesManager

/-! ## Text primitives -/

/-- Whitespace characters recognised by Python's `\s` and `str.strip()`
on ASCII text. -/
def isWsChar (c : Char) : Bool :=
  c = ' ' || c = '\t' || c = '\n' || c = '\r' || c = '\x0b' || c = '\x0c'

/-- Transliteration table modelling `unidecode.unidecode` on the Latin
diacritic letters relevant to the plugin (Czech alphabet and common
accents).  Characters outside ASCII and this table transliterate to the
empty string, as `unidecode` does for unmapped codepoints. -/
def translitTable : List (Char × List Char) :=
  [('á', ['a']), ('č', ['c']), ('ď', ['d']), ('é', ['e']), ('ě', ['e']),
   ('í', ['i']), ('ň', ['n']), ('ó', ['o']), ('ř', ['r']), ('š', ['s']),
   ('ť', ['t']), ('ú', ['u']), ('ů', ['u']), ('ý', ['y']), ('ž', ['z']),
   ('Á', ['A']), ('Č', ['C']), ('Ď', ['D']), ('É', ['E']), ('Ě', ['E']),
   ('Í', ['I']), ('Ň', ['N']), ('Ó', ['O']), ('Ř', ['R']), ('Š', ['S']),
   ('Ť', ['T']), ('Ú', ['U']), ('Ů', ['U']), ('Ý', ['Y']), ('Ž', ['Z']),
   ('ä', ['a']), ('ö', ['o']), ('ü', ['u']), ('Ä', ['A']), ('Ö', ['O']),
   ('Ü', ['U']), ('ß', ['s', 's'])]

/-- Transliterate one character: ASCII characters map to themselves,
characters in `translitTable` to their ASCII expansion, anything else to
the empty string. -/
def translitChar (c : Char) : List Char :=
  if c.toNat < 128 then [c]
  else ((translitTable.find? (fun p => p.1 = c)).map Prod.snd).getD []

/-- Lowercase table for the non-ASCII letters of `translitTable`,
modelling Python's Unicode `str.lower()` on that range. -/
def lowerTable : List (Char × Char) :=
  [('Á', 'á'), ('Č', 'č'), ('Ď', 'ď'), ('É', 'é'), ('Ě', 'ě'),
   ('Í', 'í'), ('Ň', 'ň'), ('Ó', 'ó'), ('Ř', 'ř'), ('Š', 'š'),
   ('Ť', 'ť'), ('Ú', 'ú'), ('Ů', 'ů'), ('Ý', 'ý'), ('Ž', 'ž'),
   ('Ä', 'ä'), ('Ö', 'ö'), ('Ü', 'ü')]

/-- Python `str.lower()` restricted to the modelled character range:
ASCII `A`-`Z` map to `a`-`z`, table characters to their lowercase form,
everything else to itself. -/
def pyLower (c : Char) : Char :=
  if c.toNat < 128 then
    if 'A' ≤ c ∧ c ≤ 'Z' then Char.ofNat (c.toNat + 32) else c
  else ((lowerTable.find? (fun p => p.1 = c)).map Prod.snd).getD c

/-- Collapse every maximal run of whitespace characters to a single space,
modelling Python's `re.sub(r'\s+', ' ', text)`. -/
def collapseWs : List Char → List Char
  | [] => []
  | [c] => if isWsChar c then [' '] else [c]
  | c1 :: c2 :: rest =>
      if isWsChar c1 && isWsChar c2 then collapseWs (c2 :: rest)
      else (if isWsChar c1 then ' ' else c1) :: collapseWs (c2 :: rest)

/-- Drop trailing whitespace. -/
def dropTrailingWs : List Char → List Char
  | [] => []
  | c :: rest =>
      match dropTrailingWs rest with
      | [] => if isWsChar c then [] else [c]
      | r => c :: r

/-- Python `str.strip()`: drop leading and trailing whitespace. -/
def stripWs (l : List Char) : List Char :=
  dropTrailingWs (l.dropWhile isWsChar)

/-- Python's substring test `pat in hay` (`True` for the empty pattern). -/
def containsSub (hay pat : List Char) : Bool :=
  pat.isPrefixOf hay ||
    match hay with
    | [] => false
    | _ :: t => containsSub t pat

/-- Scanning worker for `pyReplace`: remove every occurrence of the
non-empty pattern `pat`, scanning left to right, resuming after each
removed occurrence.  `fuel` bounds the scan; `pyReplace` supplies the
length of the string, which is always sufficient. -/
def pyReplaceGo (pat : List Char) : Nat → List Char → List Char
  | _, [] => []
  | 0, s => s
  | fuel + 1, c :: rest =>
      if pat.isPrefixOf (c :: rest) then
        pyReplaceGo pat fuel (rest.drop (pat.length - 1))
      else c :: pyReplaceGo pat fuel rest

/-- Python `s.replace(pat, '')`: remove every non-overlapping occurrence
of `pat` from `s`, left to right.  The empty pattern leaves `s`
unchanged, as in Python. -/
def pyReplace (s pat : List Char) : List Char :=
  if pat.isEmpty then s else pyReplaceGo pat s.length s

/-- Normalisation on character lists following `_normalize` (lines 56-66):
transliterate, lowercase, replace `-` and `_` by spaces, collapse
whitespace runs, strip. -/
def normalizeL (l : List Char) : List Char :=
  stripWs (collapseWs (((((l.map translitChar).flatten).map pyLower).map
    (fun c => if c = '-' then ' ' else c)).map
    (fun c => if c = '_' then ' ' else c)))

/-- `SeriesManager._normalize` on strings. -/
def pyNormalize (s : String) : String :=
  String.mk (normalizeL s.toList)

/-! ## Safe filenames -/

/-- Python regex `\w` (Unicode word character) restricted to the modelled
range: ASCII letters, digits, underscore, and the diacritic letters of the
transliteration tables. -/
def pyWordChar (c : Char) : Bool :=
  c.isAlphanum || c = '_' ||
    (translitTable.map Prod.fst).contains c || (lowerTable.map Prod.snd).contains c

/-- `SeriesManager._safe_filename` (lines 256-260):
`re.sub(r'[^\w\-_\. ]', '_', name).lower().replace(' ', '_')`. -/
def safeFilename (name : String) : String :=
  let subbed := name.toList.map fun c =>
    if pyWordChar c || c = '-' || c = '_' || c = '.' || c = ' ' then c else '_'
  String.mk ((subbed.map pyLower).map (fun c => if c = ' ' then '_' else c))

/-! ## Episode patterns

The six regexes of `EPISODE_PATTERNS` (lines 30-37) are compiled by hand.
Each `matchN` function attempts a match anchored at the start of the
character list, with greedy `\d+`/`\s*`; since in every pattern the token
following a greedy class can never be matched by that class, greedy
matching without backtracking is exact.  `searchFirst` scans start
positions left to right, which is `re.search`'s leftmost-match rule.
The `ci` flag models `re.IGNORECASE` (it only affects the literals that
are not already two-cased character classes). -/

/-- Take a non-empty run of ASCII digits; returns the run and the rest. -/
def takeDigits1 (s : List Char) : Option (List Char × List Char) :=
  let d := s.takeWhile Char.isDigit
  if d.isEmpty then none else some (d, s.dropWhile Char.isDigit)

/-- Numeric value of a digit run, as Python `int()`. -/
def digitsToNat (d : List Char) : Nat :=
  d.foldl (fun acc c => acc * 10 + (c.toNat - 48)) 0

/-- Case-insensitive-aware literal character match. -/
def litChar (ci : Bool) (target c : Char) : Bool :=
  c = target || (ci && pyLower c = target)

/-- Match a literal word (given in lowercase) at the front of `s`. -/
def litMatch (ci : Bool) : List Char → List Char → Option (List Char)
  | [], s => some s
  | _ :: _, [] => none
  | t :: ts, c :: cs => if litChar ci t c then litMatch ci ts cs else none

/-- Pattern 1: `[Ss](\d+)[Ee](\d+)`. -/
def match1 (_ci : Bool) (s : List Char) : Option (Nat × Nat) :=
  match s with
  | c :: r =>
      if c = 'S' || c = 's' then
        match takeDigits1 r with
        | some (d1, r1) =>
            match r1 with
            | e :: r2 =>
                if e = 'E' || e = 'e' then
                  match takeDigits1 r2 with
                  | some (d2, _) => some (digitsToNat d1, digitsToNat d2)
                  | none => none
                else none
            | [] => none
        | none => none
      else none
  | [] => none

/-- Pattern 2: `(\d+)x(\d+)`. -/
def match2 (ci : Bool) (s : List Char) : Option (Nat × Nat) :=
  match takeDigits1 s with
  | some (d1, r) =>
      match r with
      | x :: r2 =>
          if litChar ci 'x' x then
            match takeDigits1 r2 with
            | some (d2, _) => some (digitsToNat d1, digitsToNat d2)
            | none => none
          else none
      | [] => none
  | none => none

/-- Pattern 3: `[Ee]pisode\s*(\d+)`, one group; season defaults to 1. -/
def match3 (ci : Bool) (s : List Char) : Option (Nat × Nat) :=
  match s with
  | c :: r =>
      if c = 'E' || c = 'e' then
        match litMatch ci ['p', 'i', 's', 'o', 'd', 'e'] r with
        | some r1 =>
            match takeDigits1 (r1.dropWhile isWsChar) with
            | some (d, _) => some (1, digitsToNat d)
            | none => none
        | none => none
      else none
  | [] => none

/-- Pattern 4: `[Ee]p\s*(\d+)`, one group. -/
def match4 (ci : Bool) (s : List Char) : Option (Nat × Nat) :=
  match s with
  | c :: r =>
      if c = 'E' || c = 'e' then
        match r with
        | p :: r1 =>
            if litChar ci 'p' p then
              match takeDigits1 (r1.dropWhile isWsChar) with
              | some (d, _) => some (1, digitsToNat d)
              | none => none
            else none
        | [] => none
      else none
  | [] => none

/-- Pattern 5: `[Ee](\d+)`, one group. -/
def match5 (_ci : Bool) (s : List Char) : Option (Nat × Nat) :=
  match s with
  | c :: r =>
      if c = 'E' || c = 'e' then
        match takeDigits1 r with
        | some (d, _) => some (1, digitsToNat d)
        | none => none
      else none
  | [] => none

/-- Pattern 6: `(\d+)\.\s*(\d+)`. -/
def match6 (_ci : Bool) (s : List Char) : Option (Nat × Nat) :=
  match takeDigits1 s with
  | some (d1, r) =>
      match r with
      | dot :: r2 =>
          if dot = '.' then
            match takeDigits1 (r2.dropWhile isWsChar) with
            | some (d2, _) => some (digitsToNat d1, digitsToNat d2)
            | none => none
          else none
      | [] => none
  | none => none

/-- Leftmost search: try the anchored matcher at each start position. -/
def searchFirst {α : Type} (m : List Char → Option α) : List Char → Option α
  | [] => m []
  | c :: rest =>
      match m (c :: rest) with
      | some r => some r
      | none => searchFirst m rest

/-- The ordered pattern list applied by both classification functions. -/
def episodePatterns : List (Bool → List Char → Option (Nat × Nat)) :=
  [match1, match2, match3, match4, match5, match6]

/-- Try the six patterns in order (priority order) with `re.search`
semantics; first pattern that matches anywhere wins. -/
def searchPatterns (ci : Bool) (s : List Char) : Option (Nat × Nat) :=
  episodePatterns.foldl
    (fun acc m => match acc with
      | some r => some r
      | none => searchFirst (m ci) s) none

/-- Keyword list of `_is_likely_episode` (lines 139-142). -/
def episodeKeywords : List String :=
  ["episode", "season", "series", "ep", "complete", "serie", "disk"]

/-- `SeriesManager._is_likely_episode` (lines 130-146): require the
normalized series name as a substring of the normalized filename, then
accept if any episode pattern matches the raw filename case-insensitively
or any keyword occurs in the normalized filename. -/
def isLikelyEpisode (filename series : String) : Bool :=
  let nf := normalizeL filename.toList
  let ns := normalizeL series.toList
  if containsSub nf ns then
    (searchPatterns true filename.toList).isSome ||
      episodeKeywords.any (fun k => containsSub nf k.toList)
  else false

/-- The `cleaned` working string of `_detect_episode_info` (lines 179-181):
`norm_filename.replace(norm_series, '').strip()`.  Note Python's
`str.replace` removes every occurrence, not only the first. -/
def detectCleaned (filename series : String) : List Char :=
  stripWs (pyReplace (normalizeL filename.toList) (normalizeL series.toList))

/-- Anchored match for `season\s*(\d+)`: returns the full matched text
(`group(0)`) and the numeric season. -/
def matchSeason (s : List Char) : Option (List Char × Nat) :=
  match litMatch false ['s', 'e', 'a', 's', 'o', 'n'] s with
  | some r =>
      let ws := r.takeWhile isWsChar
      match takeDigits1 (r.dropWhile isWsChar) with
      | some (d, _) =>
          some (['s', 'e', 'a', 's', 'o', 'n'] ++ ws ++ d, digitsToNat d)
      | none => none
  | none => none

/-- Anchored match for `(\d+)`: first digit run. -/
def matchNum (s : List Char) : Option Nat :=
  (takeDigits1 s).map (fun p => digitsToNat p.1)

/-- `SeriesManager._detect_episode_info` (lines 177-197).  `none` models
the Python `(None, None)` result. -/
def detectEpisodeInfo (filename series : String) : Option (Nat × Nat) :=
  let cleaned := detectCleaned filename series
  match searchPatterns false cleaned with
  | some r => some r
  | none =>
      if containsSub cleaned "season".toList || containsSub cleaned "serie".toList then
        match searchFirst matchSeason cleaned with
        | some (matched, seasonNum) =>
            match searchFirst matchNum (pyReplace cleaned matched) with
            | some epNum => some (seasonNum, epNum)
            | none => none
        | none => none
      else none

/-! ## Lemmas about the text primitives -/

theorem map_fix {α : Type} {f : α → α} {l : List α}
    (h : ∀ c ∈ l, f c = c) : l.map f = l := by
  induction l with
  | nil => rfl
  | cons c rest ih =>
      simp only [List.map_cons]
      rw [h c (by simp), ih (fun x hx => h x (by simp [hx]))]

theorem translitChar_ascii {c : Char} (h : c.toNat < 128) :
    translitChar c = [c] := by
  simp [translitChar, h]

theorem translit_fix {l : List Char} (h : ∀ c ∈ l, c.toNat < 128) :
    (l.map translitChar).flatten = l := by
  induction l with
  | nil => rfl
  | cons c rest ih =>
      simp only [List.map_cons, List.flatten_cons]
      rw [translitChar_ascii (h c (by simp)), ih (fun x hx => h x (by simp [hx]))]
      rfl

/-- All transliteration outputs are ASCII (checked by evaluation). -/
theorem translitTable_ascii :
    translitTable.all (fun p => p.2.all (fun c => c.toNat < 128)) = true := by
  decide

theorem translitChar_mem_ascii {c c' : Char} (h : c' ∈ translitChar c) :
    c'.toNat < 128 := by
  by_cases hc : c.toNat < 128
  · rw [translitChar_ascii hc] at h
    rw [List.mem_singleton] at h
    subst h; exact hc
  · unfold translitChar at h
    rw [if_neg hc] at h
    cases hfind : translitTable.find? (fun p => p.1 = c) with
    | none => rw [hfind] at h; simp at h
    | some p =>
        rw [hfind] at h
        simp only [Option.map, Option.getD] at h
        have hmem := List.mem_of_find?_eq_some hfind
        have := List.all_eq_true.mp translitTable_ascii p hmem
        exact of_decide_eq_true (List.all_eq_true.mp this c' h)

/-- Per-character facts about `pyLower` on ASCII, checked by evaluating
all 128 cases: the result is ASCII and not an uppercase ASCII letter. -/
theorem pyLower_ascii_aux : ∀ n, n < 128 →
    ((pyLower (Char.ofNat n)).toNat < 128 &&
      !('A' ≤ pyLower (Char.ofNat n) && pyLower (Char.ofNat n) ≤ 'Z')) = true := by
  decide

theorem pyLower_ascii {c : Char} (h : c.toNat < 128) :
    (pyLower c).toNat < 128 ∧ ¬('A' ≤ pyLower c ∧ pyLower c ≤ 'Z') := by
  have := pyLower_ascii_aux c.toNat h
  rw [Char.ofNat_toNat] at this
  simp only [Bool.and_eq_true, Bool.not_eq_true', Bool.and_eq_false_iff,
    decide_eq_true_eq, decide_eq_false_iff_not] at this
  obtain ⟨h1, h2⟩ := this
  refine ⟨h1, ?_⟩
  rintro ⟨ha, hb⟩
  rcases h2 with h2 | h2 <;> exact absurd (by assumption) h2

theorem pyLower_fix {c : Char} (h1 : c.toNat < 128)
    (h2 : ¬('A' ≤ c ∧ c ≤ 'Z')) : pyLower c = c := by
  simp [pyLower, h1, if_neg h2]

/-! Facts about `collapseWs`, `dropTrailingWs`, `stripWs`. -/

theorem collapseWs_mem {l : List Char} {c : Char} (h : c ∈ collapseWs l) :
    c ∈ l ∨ c = ' ' := by
  induction l with
  | nil => simp [collapseWs] at h
  | cons c1 rest ih =>
      cases rest with
      | nil =>
          simp only [collapseWs] at h
          by_cases hw : isWsChar c1
          · simp [hw] at h; right; exact h
          · simp [hw] at h; left; simp [h]
      | cons c2 r2 =>
          simp only [collapseWs] at h
          by_cases hw : (isWsChar c1 && isWsChar c2) = true
          · rw [if_pos hw] at h
            rcases ih h with h' | h'
            · left; exact List.mem_cons_of_mem _ h'
            · right; exact h'
          · rw [if_neg hw] at h
            rcases List.mem_cons.mp h with h' | h'
            · by_cases hw1 : isWsChar c1
              · simp [hw1] at h'; right; exact h'
              · simp [hw1] at h'; left; simp [h']
            · rcases ih h' with h'' | h''
              · left; exact List.mem_cons_of_mem _ h''
              · right; exact h''

theorem collapseWs_ws_space {l : List Char} {c : Char}
    (h : c ∈ collapseWs l) (hws : isWsChar c = true) : c = ' ' := by
  induction l with
  | nil => simp [collapseWs] at h
  | cons c1 rest ih =>
      cases rest with
      | nil =>
          simp only [collapseWs] at h
          by_cases hw : isWsChar c1
          · simp [hw] at h; exact h
          · simp [hw] at h; rw [h] at hws; rw [h]; exact absurd hws (by simp [hw])
      | cons c2 r2 =>
          simp only [collapseWs] at h
          by_cases hw : (isWsChar c1 && isWsChar c2) = true
          · rw [if_pos hw] at h; exact ih h
          · rw [if_neg hw] at h
            rcases List.mem_cons.mp h with h' | h'
            · by_cases hw1 : isWsChar c1
              · simp [hw1] at h'; exact h'
              · simp [hw1] at h'; rw [h'] at hws
                exact absurd hws (by simp [hw1])
            · exact ih h'

theorem dropTrailingWs_mem {l : List Char} {c : Char}
    (h : c ∈ dropTrailingWs l) : c ∈ l := by
  induction l with
  | nil => simp [dropTrailingWs] at h
  | cons c1 rest ih =>
      simp only [dropTrailingWs] at h
      cases hd : dropTrailingWs rest with
      | nil =>
          rw [hd] at h
          by_cases hw : isWsChar c1
          · simp [hw] at h
          · simp [hw] at h; simp [h]
      | cons x xs =>
          rw [hd] at h
          rcases List.mem_cons.mp h with h' | h'
          · simp [h']
          · have hm : c ∈ dropTrailingWs rest := by
              rw [hd]; exact h'
            exact List.mem_cons_of_mem _ (ih hm)

theorem stripWs_mem {l : List Char} {c : Char} (h : c ∈ stripWs l) : c ∈ l := by
  have h1 := dropTrailingWs_mem h
  exact List.dropWhile_sublist isWsChar |>.mem h1

/-- No two adjacent whitespace characters. -/
def noRun : List Char → Bool
  | [] => true
  | [_] => true
  | c1 :: c2 :: rest => !(isWsChar c1 && isWsChar c2) && noRun (c2 :: rest)

theorem noRun_tail {c : Char} {l : List Char} (h : noRun (c :: l) = true) :
    noRun l = true := by
  cases l with
  | nil => rfl
  | cons c2 r =>
      simp only [noRun, Bool.and_eq_true] at h
      exact h.2

theorem collapseWs_cons_not_ws {c : Char} (rest : List Char)
    (h : isWsChar c = false) :
    collapseWs (c :: rest) = c :: collapseWs rest := by
  cases rest with
  | nil => simp [collapseWs, h]
  | cons c2 r2 => simp [collapseWs, h]

theorem noRun_cons_not_ws {k : Char} {l : List Char}
    (hk : isWsChar k = false) (hl : noRun l = true) :
    noRun (k :: l) = true := by
  cases l with
  | nil => rfl
  | cons h t => simp [noRun, hk, hl]

theorem collapseWs_noRun (l : List Char) : noRun (collapseWs l) = true := by
  induction l with
  | nil => rfl
  | cons c1 rest ih =>
      cases rest with
      | nil =>
          simp only [collapseWs]
          by_cases hw : isWsChar c1 <;> simp [hw, noRun]
      | cons c2 r2 =>
          simp only [collapseWs]
          by_cases hw : (isWsChar c1 && isWsChar c2) = true
          · rw [if_pos hw]; exact ih
          · rw [if_neg hw]
            by_cases hw1 : isWsChar c1 = true
            · have hw2 : isWsChar c2 = false := by
                cases hc : isWsChar c2 <;> simp_all
              rw [if_pos hw1]
              rw [collapseWs_cons_not_ws r2 hw2] at ih ⊢
              simp only [noRun]
              simp [hw2, ih]
            · rw [if_neg hw1]
              exact noRun_cons_not_ws (by simpa using hw1) ih

theorem noRun_dropWhile {l : List Char} (h : noRun l = true) :
    noRun (l.dropWhile isWsChar) = true := by
  induction l with
  | nil => exact h
  | cons c rest ih =>
      by_cases hc : isWsChar c = true
      · rw [List.dropWhile_cons_of_pos (by simp [hc])]
        exact ih (noRun_tail h)
      · rw [List.dropWhile_cons_of_neg (by simp [hc])]
        exact h

theorem dropTrailingWs_head {l : List Char} {h : Char} {r : List Char}
    (hd : dropTrailingWs l = h :: r) : ∃ t, l = h :: t := by
  cases l with
  | nil => simp [dropTrailingWs] at hd
  | cons c rest =>
      simp only [dropTrailingWs] at hd
      cases hcase : dropTrailingWs rest with
      | nil =>
          rw [hcase] at hd
          by_cases hw : isWsChar c
          · simp [hw] at hd
          · simp [hw] at hd
            exact ⟨rest, by rw [hd.1]⟩
      | cons x xs =>
          rw [hcase] at hd
          exact ⟨rest, by rw [(List.cons.injEq _ _ _ _).mp hd |>.1]⟩

theorem dropTrailingWs_cons_of_nil {c : Char} {l : List Char}
    (h : dropTrailingWs l = []) :
    dropTrailingWs (c :: l) = if isWsChar c = true then [] else [c] := by
  show (match dropTrailingWs l with
        | [] => if isWsChar c = true then [] else [c]
        | r => c :: r) = _
  rw [h]

theorem dropTrailingWs_cons_of_cons {c x : Char} {l xs : List Char}
    (h : dropTrailingWs l = x :: xs) :
    dropTrailingWs (c :: l) = c :: x :: xs := by
  show (match dropTrailingWs l with
        | [] => if isWsChar c = true then [] else [c]
        | r => c :: r) = _
  rw [h]

theorem noRun_dropTrailingWs {l : List Char} (h : noRun l = true) :
    noRun (dropTrailingWs l) = true := by
  induction l with
  | nil => exact h
  | cons c rest ih =>
      cases hcase : dropTrailingWs rest with
      | nil =>
          rw [dropTrailingWs_cons_of_nil hcase]
          by_cases hw : isWsChar c <;> simp [hw, noRun]
      | cons x xs =>
          rw [dropTrailingWs_cons_of_cons hcase]
          have hx : noRun (x :: xs) = true := by
            rw [← hcase]; exact ih (noRun_tail h)
          obtain ⟨t, ht⟩ := dropTrailingWs_head hcase
          rw [ht] at h
          simp only [noRun, Bool.and_eq_true] at h ⊢
          exact ⟨h.1, hx⟩

theorem dropWhile_head_not {p : Char → Bool} {l : List Char} {c : Char}
    {r : List Char} (h : l.dropWhile p = c :: r) : p c = false := by
  induction l with
  | nil => simp at h
  | cons a t ih =>
      by_cases ha : p a = true
      · rw [List.dropWhile_cons_of_pos ha] at h
        exact ih h
      · rw [List.dropWhile_cons_of_neg (by simpa using ha)] at h
        rw [← (List.cons.injEq _ _ _ _).mp h |>.1]
        simpa using ha

theorem dropTrailingWs_idem (l : List Char) :
    dropTrailingWs (dropTrailingWs l) = dropTrailingWs l := by
  induction l with
  | nil => rfl
  | cons c rest ih =>
      cases hcase : dropTrailingWs rest with
      | nil =>
          rw [dropTrailingWs_cons_of_nil hcase]
          by_cases hw : isWsChar c = true
          · rw [if_pos hw]; rfl
          · rw [if_neg hw]
            rw [dropTrailingWs_cons_of_nil (l := []) rfl, if_neg hw]
      | cons x xs =>
          rw [dropTrailingWs_cons_of_cons hcase]
          rw [hcase] at ih
          rw [dropTrailingWs_cons_of_cons ih]

theorem stripWs_idem (l : List Char) : stripWs (stripWs l) = stripWs l := by
  unfold stripWs
  cases hcase : dropTrailingWs (l.dropWhile isWsChar) with
  | nil => rfl
  | cons h r =>
      obtain ⟨t, ht⟩ := dropTrailingWs_head hcase
      have hh : isWsChar h = false := dropWhile_head_not ht
      rw [List.dropWhile_cons_of_neg (by simp [hh])]
      conv_lhs => rw [← hcase]
      rw [dropTrailingWs_idem, hcase]

theorem collapseWs_id {l : List Char}
    (hws : ∀ c ∈ l, isWsChar c = true → c = ' ')
    (hnr : noRun l = true) : collapseWs l = l := by
  induction l with
  | nil => rfl
  | cons c1 rest ih =>
      cases rest with
      | nil =>
          simp only [collapseWs]
          by_cases hw : isWsChar c1
          · rw [if_pos hw, hws c1 (by simp) hw]
          · rw [if_neg hw]
      | cons c2 r2 =>
          simp only [collapseWs]
          simp only [noRun, Bool.and_eq_true, Bool.not_eq_true'] at hnr
          rw [if_neg (by simp [hnr.1])]
          have htail : collapseWs (c2 :: r2) = c2 :: r2 :=
            ih (fun c hc hw => hws c (List.mem_cons_of_mem _ hc) hw) hnr.2
          rw [htail]
          by_cases hw : isWsChar c1
          · rw [if_pos hw, hws c1 (by simp) hw]
          · rw [if_neg hw]

/-- Every character of a normalised string is ASCII, not an uppercase
letter, not a dash or underscore; and its only whitespace character is a
plain space. -/
theorem normalizeL_chars {l : List Char} {c : Char} (h : c ∈ normalizeL l) :
    (c.toNat < 128 ∧ ¬('A' ≤ c ∧ c ≤ 'Z') ∧ c ≠ '-' ∧ c ≠ '_') ∧
      (isWsChar c = true → c = ' ') := by
  unfold normalizeL at h
  have hcol := stripWs_mem h
  refine ⟨?_, fun hws => collapseWs_ws_space hcol hws⟩
  rcases collapseWs_mem hcol with hu | hsp
  · rcases List.mem_map.mp hu with ⟨y, hy, hyc⟩
    rcases List.mem_map.mp hy with ⟨x, hx, hxy⟩
    rcases List.mem_map.mp hx with ⟨a, ha, hax⟩
    have hascii : a.toNat < 128 := by
      rcases List.mem_flatten.mp ha with ⟨s, hs, has⟩
      rcases List.mem_map.mp hs with ⟨b, _, hbs⟩
      exact translitChar_mem_ascii (hbs ▸ has)
    have hx1 := (pyLower_ascii hascii).1
    have hx2 := (pyLower_ascii hascii).2
    rw [hax] at hx1 hx2
    subst hyc
    by_cases hxd : x = '-'
    · subst hxy
      simp [hxd]
    · by_cases hxu : x = '_'
      · subst hxy
        simp [hxd, hxu]
      · subst hxy
        simp only [if_neg hxd, if_neg hxu]
        exact ⟨hx1, hx2, hxd, hxu⟩
  · subst hsp
    refine ⟨by decide, by decide, by decide, by decide⟩

/-- The `_normalize` function is idempotent on character lists. -/
theorem normalizeL_idem (l : List Char) :
    normalizeL (normalizeL l) = normalizeL l := by
  have hch := fun (c : Char) (hc : c ∈ normalizeL l) => normalizeL_chars hc
  have h1 : ((normalizeL l).map translitChar).flatten = normalizeL l :=
    translit_fix (fun c hc => ((hch c hc).1).1)
  have h2 : (normalizeL l).map pyLower = normalizeL l :=
    map_fix (fun c hc => pyLower_fix ((hch c hc).1).1 ((hch c hc).1).2.1)
  have h3 : (normalizeL l).map (fun c => if c = '-' then ' ' else c) =
      normalizeL l :=
    map_fix (fun c hc => if_neg ((hch c hc).1).2.2.1)
  have h4 : (normalizeL l).map (fun c => if c = '_' then ' ' else c) =
      normalizeL l :=
    map_fix (fun c hc => if_neg ((hch c hc).1).2.2.2)
  have hnr : noRun (normalizeL l) = true := by
    unfold normalizeL stripWs
    exact noRun_dropTrailingWs (noRun_dropWhile (collapseWs_noRun _))
  have h5 : collapseWs (normalizeL l) = normalizeL l :=
    collapseWs_id (fun c hc hws => (hch c hc).2 hws) hnr
  have h6 : stripWs (normalizeL l) = normalizeL l := by
    conv_lhs => rw [normalizeL]
    rw [stripWs_idem]; rfl
  show stripWs (collapseWs (List.map (fun c => if c = '_' then ' ' else c)
      (List.map (fun c => if c = '-' then ' ' else c)
        (List.map pyLower (List.map translitChar (normalizeL l)).flatten)))) =
    normalizeL l
  rw [h1, h2, h3, h4, h5, h6]

/-! ## Removing only the first occurrence (the spec's description)

Modelled from the spec: the specification describes `cleaned` as the
normalized filename with the *first* occurrence of the normalized series
name removed, then trimmed.  `removeFirstOcc` implements that wording, to
be compared with the source's `str.replace` (which removes all
occurrences). -/

/-- Remove the first occurrence of the non-empty pattern. -/
def removeFirstGo (pat : List Char) : List Char → List Char
  | [] => []
  | c :: rest =>
      if pat.isPrefixOf (c :: rest) then rest.drop (pat.length - 1)
      else c :: removeFirstGo pat rest

/-- Remove the first occurrence of `pat` from `s`; the empty pattern
leaves `s` unchanged. -/
def removeFirstOcc (s pat : List Char) : List Char :=
  if pat.isEmpty then s else removeFirstGo pat s

/-- Modelled from the spec: `cleaned` per the specification's wording
(remove the first occurrence of the normalized series name, trim). -/
def cleanedSpecFirst (filename series : String) : List Char :=
  stripWs (removeFirstOcc (normalizeL filename.toList) (normalizeL series.toList))

theorem containsSub_cons_false {c : Char} {t pat : List Char}
    (h : containsSub (c :: t) pat = false) :
    pat.isPrefixOf (c :: t) = false ∧ containsSub t pat = false := by
  unfold containsSub at h
  exact Bool.or_eq_false_iff.mp h

/-- Where the pattern does not occur, Python's replace changes nothing. -/
theorem pyReplaceGo_no_occ {pat s : List Char} (fuel : Nat)
    (h : containsSub s pat = false) : pyReplaceGo pat fuel s = s := by
  induction s generalizing fuel with
  | nil => cases fuel <;> rfl
  | cons c rest ih =>
      obtain ⟨hp, ht⟩ := containsSub_cons_false h
      cases fuel with
      | zero => rfl
      | succ f =>
          unfold pyReplaceGo
          rw [hp]
          simp only [Bool.false_eq_true, if_false]
          rw [ih f ht]

/-- When no occurrence of the pattern remains after removing the first
one, removing all occurrences and removing the first occurrence agree. -/
theorem pyReplaceGo_eq_removeFirstGo {pat : List Char} (s : List Char)
    (fuel : Nat) (hfuel : s.length ≤ fuel)
    (h : containsSub (removeFirstGo pat s) pat = false) :
    pyReplaceGo pat fuel s = removeFirstGo pat s := by
  induction s generalizing fuel with
  | nil => cases fuel <;> rfl
  | cons c rest ih =>
      cases fuel with
      | zero => simp at hfuel
      | succ f =>
          unfold pyReplaceGo removeFirstGo
          by_cases hp : pat.isPrefixOf (c :: rest) = true
          · rw [hp]
            simp only [if_true]
            unfold removeFirstGo at h
            rw [hp] at h
            simp only [if_true] at h
            exact pyReplaceGo_no_occ f h
          · rw [Bool.not_eq_true] at hp
            rw [hp]
            simp only [Bool.false_eq_true, if_false]
            unfold removeFirstGo at h
            rw [hp] at h
            simp only [Bool.false_eq_true, if_false] at h
            obtain ⟨_, ht⟩ := containsSub_cons_false h
            rw [ih f (by simpa using Nat.le_of_succ_le_succ hfuel) ht]

/-- Main replace-agreement lemma: if the pattern occurs at most once in
`s` (no occurrence remains after removing the first), `str.replace`
equals remove-first. -/
theorem pyReplace_eq_removeFirstOcc {s pat : List Char}
    (h : containsSub (removeFirstOcc s pat) pat = false) :
    pyReplace s pat = removeFirstOcc s pat := by
  unfold pyReplace removeFirstOcc at *
  by_cases he : pat.isEmpty = true
  · exfalso
    rw [if_pos he] at h
    have : pat = [] := by cases pat <;> simp_all [List.isEmpty]
    subst this
    cases s <;> simp [containsSub, List.isPrefixOf] at h
  · rw [Bool.not_eq_true] at he
    rw [he] at h ⊢
    simp only [Bool.false_eq_true, if_false] at h ⊢
    exact pyReplaceGo_eq_removeFirstGo s s.length (Nat.le_refl _) h

/-! ## Raw search results and the collaborator boundary

A search hit is the dictionary built from the direct children of a
`<file>` element: tag name to text (later duplicate tags overwrite, as in
a Python dict).  Element text is modelled as `String` (an absent text is
the empty string; the plugin only feeds it to `_normalize`, which treats
`None` and `''` alike). -/

/-- One raw search-result entry: the tag-to-text dictionary, in insertion
order. -/
abbrev RawEntry : Type := List (String × String)

/-- Dictionary lookup (first matching key; keys are unique because
insertion overwrites). -/
def entryField (e : RawEntry) (k : String) : Option String :=
  (e.find? (fun p => p.1 = k)).map Prod.snd

/-- `item['name']` (a missing key is modelled as empty text). -/
def entryName (e : RawEntry) : String := (entryField e "name").getD ""

/-- `item['ident']`. -/
def entryIdent (e : RawEntry) : String := (entryField e "ident").getD ""

/-- `item.get('size', '0')`. -/
def entrySize (e : RawEntry) : String := (entryField e "size").getD "0"

/-- Python dict insertion: overwrite in place or append. -/
def dictUpsert : List (String × String) → String → String → List (String × String)
  | [], k, v => [(k, v)]
  | (k', v') :: rest, k, v =>
      if k' = k then (k, v) :: rest else (k', v') :: dictUpsert rest k v

/-- An XML element: tag, text, children. -/
inductive XmlElem where
  | node (tag : String) (text : String) (children : List XmlElem)

/-- The tag of an element. -/
def XmlElem.tagOf : XmlElem → String
  | .node t _ _ => t

/-- The text of an element. -/
def XmlElem.textOf : XmlElem → String
  | .node _ tx _ => tx

/-- The direct children of an element. -/
def XmlElem.childrenOf : XmlElem → List XmlElem
  | .node _ _ ch => ch

mutual
/-- `ElementTree.iter('file')`: the element itself and all descendants
with tag `file`, in document (preorder) order. -/
def iterFiles : XmlElem → List XmlElem
  | .node t tx ch =>
      (if t = "file" then [XmlElem.node t tx ch] else []) ++ iterFilesList ch
/-- `iterFiles` over a list of elements. -/
def iterFilesList : List XmlElem → List XmlElem
  | [] => []
  | e :: rest => iterFiles e ++ iterFilesList rest
end

/-- Build the item dictionary from a `<file>` element's direct children
(lines 170-172). -/
def itemOfFile (e : XmlElem) : RawEntry :=
  e.childrenOf.foldl (fun acc c => dictUpsert acc c.tagOf c.textOf) []

/-- `xml.find('status')` checks direct children only; the search counts
as successful when the status element exists with text `OK`. -/
def statusOK (root : XmlElem) : Bool :=
  match root.childrenOf.find? (fun e => e.tagOf = "status") with
  | some el => el.textOf = "OK"
  | none => false

/-- A collaborator response: either a body `ET.fromstring` cannot parse
(which raises), or a parsed XML document. -/
inductive PResponse where
  | badXml
  | xmlDoc (root : XmlElem)

/-- `SeriesManager._perform_search` (lines 148-175): parse the response
(raising on a malformed body, modelled as `Except.error`), then collect
the `<file>` items when the status is `OK`, and an empty list otherwise. -/
def performSearch (resp : PResponse) : Except Unit (List RawEntry) :=
  match resp with
  | .badXml => .error ()
  | .xmlDoc root =>
      .ok (if statusOK root then (iterFiles root).map itemOfFile else [])

/-- The eleven query variants of `search_series` (lines 76-95), in
source order. -/
def planQueries (name : String) : List String :=
  let norm := pyNormalize name
  let nospaces := String.mk (norm.toList.filter (fun c => c ≠ ' '))
  let underscores := String.mk (norm.toList.map (fun c => if c = ' ' then '_' else c))
  let dashes := String.mk (norm.toList.map (fun c => if c = ' ' then '-' else c))
  [name, norm, nospaces, underscores, dashes,
   name ++ " season", name ++ " s01", name ++ " episode",
   norm ++ " season", norm ++ " s01", norm ++ " episode"]

/-- One query's results merged into the accumulator (lines 100-102):
keep entries not already collected that look like episodes of the
series. -/
def gatherStep (series : String) (acc results : List RawEntry) : List RawEntry :=
  results.foldl
    (fun a r =>
      if !(a.contains r) && isLikelyEpisode (entryName r) series then a ++ [r]
      else a)
    acc

/-- The query loop of `search_series` (lines 97-102): issue each query in
order; an exception from `_perform_search` propagates and aborts the
whole loop. -/
def gatherFrom (series : String) (api : String → PResponse)
    (acc : List RawEntry) : List String → Except Unit (List RawEntry)
  | [] => .ok acc
  | q :: qs =>
      match performSearch (api q) with
      | .error e => .error e
      | .ok results => gatherFrom series api (gatherStep series acc results) qs

/-- All raw results collected by one `search_series` call. -/
def searchResults (series : String) (api : String → PResponse) :
    Except Unit (List RawEntry) :=
  gatherFrom series api [] (planQueries series)

/-! ## Classification and grouping -/

/-- The episode dictionary appended per classified item
(lines 114-118): name, ident, size. -/
structure StreamF where
  name : String
  ident : String
  size : String
  deriving DecidableEq, Repr

/-- Field view of an episode record (lines 124-126): the fields of the
first file, plus the full stream list. -/
structure EpisodeRecordF where
  name : String
  ident : String
  size : String
  streams : List StreamF
  deriving DecidableEq, Repr

/-- Nested season/episode buckets in insertion order:
season key to episode key to discovered file list. -/
abbrev Buckets : Type := List (String × List (String × List StreamF))

/-- The stream dictionary built for one classified item. -/
def streamOfEntry (e : RawEntry) : StreamF :=
  ⟨entryName e, entryIdent e, entrySize e⟩

/-- Append an item to an episode's file list (keeping position), or open
a new episode at the end, as Python dict insertion does. -/
def addToInner : List (String × List StreamF) → String → StreamF →
    List (String × List StreamF)
  | [], en, st => [(en, [st])]
  | (k, files) :: rest, en, st =>
      if k = en then (k, files ++ [st]) :: rest
      else (k, files) :: addToInner rest en st

/-- Add a classified item under its season and episode keys
(lines 108-118). -/
def addToBuckets : Buckets → String → String → StreamF → Buckets
  | [], sn, en, st => [(sn, [(en, [st])])]
  | (k, inner) :: rest, sn, en, st =>
      if k = sn then (k, addToInner inner en st) :: rest
      else (k, inner) :: addToBuckets rest sn en st

/-- The classification loop of `search_series` (lines 104-118). -/
def buildEpisodes (series : String) (rs : List RawEntry) : Buckets :=
  rs.foldl
    (fun acc item =>
      match detectEpisodeInfo (entryName item) series with
      | none => acc
      | some (s, e) => addToBuckets acc (toString s) (toString e) (streamOfEntry item))
    []

/-- Build one episode record from a bucket (lines 123-126): the first
file's fields become the record's own, the full list becomes `streams`.
An empty bucket never occurs (`buildEpisodes_wf`). -/
def mkRecord : List StreamF → EpisodeRecordF
  | [] => ⟨"", "", "", []⟩
  | st :: rest => ⟨st.name, st.ident, st.size, st :: rest⟩

/-- The conversion loop of `search_series` (lines 119-126), field view. -/
def convertSeasons (eps : Buckets) : List (String × List (String × EpisodeRecordF)) :=
  eps.map (fun p => (p.1, p.2.map (fun q => (q.1, mkRecord q.2))))

/-! ## Python object graphs and JSON serialization

Python values are trees of dicts/lists/strings except where mutation
introduces sharing.  `HVal` represents a value: strings, dicts and lists
inline (for unshared objects), and `href` for a reference to a heap
object.  `search_series` line 125 (`main['streams'] = files` after
`main = files[0]`) makes each episode dict and its stream list mutually
referent, so those two objects live on the heap. -/

/-- A Python value: inline string/dict/list, or a heap reference. -/
inductive HVal where
  | hstr (s : String)
  | hdictV (fields : List (String × HVal))
  | hlistV (elems : List HVal)
  | href (a : Nat)

/-- A JSON value as produced by `json.dumps`/`json.loads` (the textual
layer is abstracted away; `json.loads` inverts `json.dumps` on values). -/
inductive Json where
  | jstr (s : String)
  | jarr (elems : List Json)
  | jobj (fields : List (String × Json))

mutual
/-- `json.dumps` on a value graph: `active` is the set of container
addresses on the current recursion path (Python's circular-reference
markers); revisiting one raises `ValueError`, modelled as `none`.  `fuel`
bounds dereferencing; any fuel at least the number of heap objects gives
the same result, and inline (unshared) values never consume fuel. -/
def serV (heap : Nat → Option HVal) : Nat → List Nat → HVal → Option Json
  | _, _, .hstr s => some (.jstr s)
  | fuel, act, .hdictV es => (serVEntries heap fuel act es).map Json.jobj
  | fuel, act, .hlistV vs => (serVList heap fuel act vs).map Json.jarr
  | fuel, act, .href a =>
      if a ∈ act then none
      else
        match fuel with
        | 0 => none
        | f + 1 =>
            match heap a with
            | none => none
            | some v => serV heap f (a :: act) v
  termination_by fuel _ v => (fuel, sizeOf v)
/-- Serialize dict entries in order; any failing entry fails the dict. -/
def serVEntries (heap : Nat → Option HVal) :
    Nat → List Nat → List (String × HVal) → Option (List (String × Json))
  | _, _, [] => some []
  | fuel, act, (k, v) :: rest =>
      match serV heap fuel act v with
      | none => none
      | some j => (serVEntries heap fuel act rest).map (fun l => (k, j) :: l)
  termination_by fuel _ es => (fuel, sizeOf es)
/-- Serialize list elements in order; any failing element fails the list. -/
def serVList (heap : Nat → Option HVal) :
    Nat → List Nat → List HVal → Option (List Json)
  | _, _, [] => some []
  | fuel, act, v :: rest =>
      match serV heap fuel act v with
      | none => none
      | some j => (serVList heap fuel act rest).map (fun l => j :: l)
  termination_by fuel _ vs => (fuel, sizeOf vs)
end

/-! ## The catalog store

The store maps file names to file contents.  A file content is either
the empty file left by opening for writing and never completing a write,
or a serialized JSON document. -/

/-- Content of one catalog file. -/
inductive FileContent where
  | emptyFile
  | jsonFile (j : Json)

/-- The store directory: file name to content. -/
abbrev Store : Type := List (String × FileContent)

/-- Write (create or replace) a file. -/
def insertStore : Store → String → FileContent → Store
  | [], k, v => [(k, v)]
  | (k', v') :: rest, k, v =>
      if k' = k then (k, v) :: rest else (k', v') :: insertStore rest k v

/-- Read a file if it exists. -/
def lookupStore : Store → String → Option FileContent
  | [], _ => none
  | (k', v') :: rest, k => if k' = k then some v' else lookupStore rest k

/-- The catalog file path for a series (lines 201-202, 217-218). -/
def catalogPath (name : String) : String :=
  safeFilename name ++ ".json"

/-- `SeriesManager._save_series_data` (lines 199-213): open the file for
writing, which truncates it at once; then serialize; a serialization
failure (for example the circular-reference `ValueError`) escapes the
inner `except AttributeError`, is caught by the outer handler and only
logged, leaving the truncated file behind.  On success the document is
written.  `fuel` bounds heap dereferencing during serialization and is
irrelevant for tree-shaped values. -/
def saveSeriesData (store : Store) (name : String) (heap : Nat → Option HVal)
    (fuel : Nat) (root : HVal) : Store :=
  let path := catalogPath name
  let truncated := insertStore store path .emptyFile
  match serV heap fuel [] root with
  | some j => insertStore truncated path (.jsonFile j)
  | none => truncated

/-- `SeriesManager.load_series_data` (lines 215-234): `None` when the
file does not exist; parse failure (for example an empty truncated file)
is caught and yields `None`; otherwise the parsed document. -/
def loadSeriesData (store : Store) (name : String) : Option Json :=
  match lookupStore store (catalogPath name) with
  | none => none
  | some .emptyFile => none
  | some (.jsonFile j) => some j

/-! ## The heap built by the conversion loop

Lines 119-126 take the accumulated buckets and, for every
(season, episode) bucket, mutate the first file dict: `main = files[0];
main['streams'] = files`.  After the loop the observable object graph
gives, for the `i`-th bucket (in iteration order), a dict at address
`2*i` whose `streams` field references the list at address `2*i + 1`,
whose first element references the dict back; the remaining files of the
bucket are unshared plain dicts. -/

/-- Inline dict value of an unshared stream entry. -/
def hvalOfStream (st : StreamF) : HVal :=
  .hdictV [("name", .hstr st.name), ("ident", .hstr st.ident),
           ("size", .hstr st.size)]

/-- The mutated first dict of a bucket: its original three fields plus
the `streams` reference added by line 125 (insertion order preserved). -/
def mainDictV (st : StreamF) (listAddr : Nat) : HVal :=
  .hdictV [("name", .hstr st.name), ("ident", .hstr st.ident),
           ("size", .hstr st.size), ("streams", .href listAddr)]

/-- The buckets flattened in iteration order (season order, then episode
order inside each season). -/
def flattenBuckets (eps : Buckets) : List (List StreamF) :=
  (eps.map (fun p => p.2.map Prod.snd)).flatten

/-- The heap after the conversion loop: addresses `2*i` and `2*i + 1`
hold the `i`-th bucket's record dict and stream list. -/
def heapOfEpisodes (eps : Buckets) : Nat → Option HVal :=
  fun a =>
    match (flattenBuckets eps).get? (a / 2) with
    | some (st :: tl) =>
        if a % 2 = 0 then some (mainDictV st (a + 1))
        else some (.hlistV (.href (a - 1) :: tl.map hvalOfStream))
    | _ => none

/-- Reference entries for the episodes of one season, starting at bucket
index `i`. -/
def epRefs : Nat → List (String × List StreamF) → List (String × HVal)
  | _, [] => []
  | i, (en, _) :: rest => (en, .href (2 * i)) :: epRefs (i + 1) rest

/-- The `seasons` dict value, with bucket indices assigned in iteration
order. -/
def seasonRefs : Nat → Buckets → List (String × HVal)
  | _, [] => []
  | i, (sn, inner) :: rest =>
      (sn, .hdictV (epRefs i inner)) :: seasonRefs (i + inner.length) rest

/-- The `series_data` dict (lines 70-74 and 119-126): keys in insertion
order `name`, `last_updated`, `seasons`. -/
def rootVal (series date : String) (eps : Buckets) : HVal :=
  .hdictV [("name", .hstr series), ("last_updated", .hstr date),
           ("seasons", .hdictV (seasonRefs 0 eps))]

/-- Fuel amply covering the heap (two addresses per bucket). -/
def serFuel (eps : Buckets) : Nat :=
  2 * (flattenBuckets eps).length + 3

/-- `SeriesManager.search_series` (lines 68-128) at the store level:
gather raw results over the planned queries (a parse error propagates),
classify and group them, build the object graph, save it (failures
swallowed), and return the catalog root.  `date` stands for
`xbmc.getInfoLabel('System.Date')`. -/
def searchSeries (store : Store) (series date : String)
    (api : String → PResponse) : Except Unit (Store × HVal) :=
  (searchResults series api).map fun rs =>
    let eps := buildEpisodes series rs
    (saveSeriesData store series (heapOfEpisodes eps) (serFuel eps)
      (rootVal series date eps),
     rootVal series date eps)

/-! ## Catalogs as tree values (for the store round trip)

A catalog handed to `_save_series_data` whose object graph is a tree
(no sharing) serializes structurally; `SeriesCatalog` is the field view
of such a catalog, `hvalOfCatalog` its object graph and `jsonOfCatalog`
its JSON document. -/

/-- Field view of a well-formed (tree-shaped) series catalog. -/
structure SeriesCatalog where
  name : String
  lastUpdated : String
  seasons : List (String × List (String × EpisodeRecordF))
  deriving DecidableEq, Repr

/-- JSON document of one stream entry. -/
def jsonOfStream (st : StreamF) : Json :=
  .jobj [("name", .jstr st.name), ("ident", .jstr st.ident),
         ("size", .jstr st.size)]

/-- JSON document of one episode record. -/
def jsonOfRecord (r : EpisodeRecordF) : Json :=
  .jobj [("name", .jstr r.name), ("ident", .jstr r.ident),
         ("size", .jstr r.size),
         ("streams", .jarr (r.streams.map jsonOfStream))]

/-- JSON document of a whole catalog. -/
def jsonOfCatalog (c : SeriesCatalog) : Json :=
  .jobj [("name", .jstr c.name), ("last_updated", .jstr c.lastUpdated),
         ("seasons", .jobj (c.seasons.map (fun p =>
           (p.1, Json.jobj (p.2.map (fun q => (q.1, jsonOfRecord q.2)))))))]

/-- Object graph of one episode record (tree, no sharing). -/
def hvalOfRecord (r : EpisodeRecordF) : HVal :=
  .hdictV [("name", .hstr r.name), ("ident", .hstr r.ident),
           ("size", .hstr r.size),
           ("streams", .hlistV (r.streams.map hvalOfStream))]

/-- Object graph of a whole catalog (tree, no sharing). -/
def hvalOfCatalog (c : SeriesCatalog) : HVal :=
  .hdictV [("name", .hstr c.name), ("last_updated", .hstr c.lastUpdated),
           ("seasons", .hdictV (c.seasons.map (fun p =>
             (p.1, HVal.hdictV (p.2.map (fun q => (q.1, hvalOfRecord q.2)))))))]

/-- Field lookup in a JSON object. -/
def jsonField (fields : List (String × Json)) (k : String) : Option Json :=
  (fields.find? (fun p => p.1 = k)).map Prod.snd

/-- Read a stream entry back from its JSON document, field for field. -/
def decodeStream (j : Json) : Option StreamF :=
  match j with
  | .jobj fs =>
      match jsonField fs "name", jsonField fs "ident", jsonField fs "size" with
      | some (.jstr n), some (.jstr i), some (.jstr s) => some ⟨n, i, s⟩
      | _, _, _ => none
  | _ => none

/-- Read an episode record back from its JSON document. -/
def decodeRecord (j : Json) : Option EpisodeRecordF :=
  match j with
  | .jobj fs =>
      match jsonField fs "name", jsonField fs "ident", jsonField fs "size",
            jsonField fs "streams" with
      | some (.jstr n), some (.jstr i), some (.jstr s), some (.jarr l) =>
          (l.mapM decodeStream).map (fun sts => ⟨n, i, s, sts⟩)
      | _, _, _, _ => none
  | _ => none

/-- Read a whole catalog back from its JSON document. -/
def decodeCatalog (j : Json) : Option SeriesCatalog :=
  match j with
  | .jobj fs =>
      match jsonField fs "name", jsonField fs "last_updated",
            jsonField fs "seasons" with
      | some (.jstr n), some (.jstr d), some (.jobj seas) =>
          (seas.mapM (fun p : String × Json =>
            match p.2 with
            | .jobj inner =>
                ((inner.mapM (fun q : String × Json =>
                  (decodeRecord q.2).map (fun r => (q.1, r))) :
                    Option (List (String × EpisodeRecordF)))).map
                  (fun l => (p.1, l))
            | _ => none)).map (fun l => ⟨n, d, l⟩)
      | _, _, _ => none
  | _ => none

/-! ## Serialization lemmas -/

theorem serV_hvalOfStream (heap : Nat → Option HVal) (fuel : Nat)
    (act : List Nat) (st : StreamF) :
    serV heap fuel act (hvalOfStream st) = some (jsonOfStream st) := by
  simp [serV, serVEntries, hvalOfStream, jsonOfStream]

theorem serVList_streams (heap : Nat → Option HVal) (fuel : Nat)
    (act : List Nat) (l : List StreamF) :
    serVList heap fuel act (l.map hvalOfStream) = some (l.map jsonOfStream) := by
  induction l with
  | nil => simp [serVList]
  | cons st rest ih =>
      simp only [List.map_cons]
      rw [serVList]
      rw [serV_hvalOfStream, ih]
      rfl

theorem serV_hvalOfRecord (heap : Nat → Option HVal) (fuel : Nat)
    (act : List Nat) (r : EpisodeRecordF) :
    serV heap fuel act (hvalOfRecord r) = some (jsonOfRecord r) := by
  unfold hvalOfRecord jsonOfRecord
  rw [serV]
  rw [serVEntries, serV, serVEntries, serV, serVEntries, serV, serVEntries,
    serV, serVList_streams, serVEntries]
  rfl

theorem serVEntries_records (heap : Nat → Option HVal) (fuel : Nat)
    (act : List Nat) (inner : List (String × EpisodeRecordF)) :
    serVEntries heap fuel act (inner.map (fun q => (q.1, hvalOfRecord q.2))) =
      some (inner.map (fun q => (q.1, jsonOfRecord q.2))) := by
  induction inner with
  | nil => rw [List.map_nil, serVEntries, List.map_nil]
  | cons q rest ih =>
      simp only [List.map_cons]
      rw [serVEntries, serV_hvalOfRecord, ih]
      rfl

theorem serVEntries_seasons (heap : Nat → Option HVal) (fuel : Nat)
    (act : List Nat) (seas : List (String × List (String × EpisodeRecordF))) :
    serVEntries heap fuel act (seas.map (fun p =>
        (p.1, HVal.hdictV (p.2.map (fun q => (q.1, hvalOfRecord q.2)))))) =
      some (seas.map (fun p =>
        (p.1, Json.jobj (p.2.map (fun q => (q.1, jsonOfRecord q.2)))))) := by
  induction seas with
  | nil => rw [List.map_nil, serVEntries, List.map_nil]
  | cons p rest ih =>
      simp only [List.map_cons]
      rw [serVEntries, serV, serVEntries_records, ih]
      rfl

/-- A tree-shaped catalog always serializes, to its structural JSON
document, for any heap, fuel and active set. -/
theorem serV_hvalOfCatalog (heap : Nat → Option HVal) (fuel : Nat)
    (act : List Nat) (c : SeriesCatalog) :
    serV heap fuel act (hvalOfCatalog c) = some (jsonOfCatalog c) := by
  unfold hvalOfCatalog jsonOfCatalog
  rw [serV]
  rw [serVEntries, serV, serVEntries, serV, serVEntries, serV,
    serVEntries_seasons, serVEntries]
  rfl

theorem serVEntries_none_of_mem {heap : Nat → Option HVal} {fuel : Nat}
    {act : List Nat} {es : List (String × HVal)} {k : String} {v : HVal}
    (hmem : (k, v) ∈ es) (hv : serV heap fuel act v = none) :
    serVEntries heap fuel act es = none := by
  induction es with
  | nil => simp at hmem
  | cons e rest ih =>
      rw [serVEntries]
      rcases List.mem_cons.mp hmem with h | h
      · rw [show e.2 = v from by rw [← h], hv]
      · cases hs : serV heap fuel act e.2 with
        | none => rfl
        | some j => rw [ih h]; rfl

theorem serVList_none_of_mem {heap : Nat → Option HVal} {fuel : Nat}
    {act : List Nat} {vs : List HVal} {v : HVal}
    (hmem : v ∈ vs) (hv : serV heap fuel act v = none) :
    serVList heap fuel act vs = none := by
  induction vs with
  | nil => simp at hmem
  | cons e rest ih =>
      rw [serVList]
      rcases List.mem_cons.mp hmem with h | h
      · rw [← h, hv]
      · cases hs : serV heap fuel act e with
        | none => rfl
        | some j => rw [ih h]; rfl

theorem serV_href (heap : Nat → Option HVal) (fuel : Nat) (act : List Nat)
    (a : Nat) :
    serV heap fuel act (.href a) =
      if a ∈ act then none
      else
        match fuel with
        | 0 => none
        | f + 1 =>
            match heap a with
            | none => none
            | some v => serV heap f (a :: act) v := by
  rw [serV.eq_def]

/-- The mutual reference installed by line 125 makes serialization fail
from the record dict, whatever the fuel and path: Python's circular
reference check fires. -/
theorem serV_cycle {heap : Nat → Option HVal} {a L : Nat}
    {es : List (String × HVal)} {tl : List HVal}
    (ha : heap a = some (.hdictV es))
    (hstreams : ("streams", HVal.href L) ∈ es)
    (hL : heap L = some (.hlistV (.href a :: tl))) :
    ∀ fuel act, serV heap fuel act (.href a) = none := by
  intro fuel act
  rw [serV_href]
  by_cases hmem : a ∈ act
  · rw [if_pos hmem]
  · rw [if_neg hmem]
    cases fuel with
    | zero => rfl
    | succ f =>
        rw [ha]
        show serV heap f (a :: act) (.hdictV es) = none
        rw [serV]
        have hinner : serV heap f (a :: act) (.href L) = none := by
          rw [serV_href]
          by_cases hmem2 : L ∈ a :: act
          · rw [if_pos hmem2]
          · rw [if_neg hmem2]
            cases f with
            | zero => rfl
            | succ g =>
                rw [hL]
                show serV heap g (L :: a :: act) (.hlistV (.href a :: tl)) = none
                rw [serV]
                have helem : serV heap g (L :: a :: act) (.href a) = none := by
                  rw [serV_href]
                  rw [if_pos (by simp)]
                rw [serVList_none_of_mem (List.mem_cons_self _ _) helem]
                rfl
        rw [serVEntries_none_of_mem hstreams hinner]
        rfl

/-! ## Store and round-trip lemmas -/

theorem lookupStore_insertStore (st : Store) (k : String) (v : FileContent) :
    lookupStore (insertStore st k v) k = some v := by
  induction st with
  | nil => simp [insertStore, lookupStore]
  | cons e rest ih =>
      rcases e with ⟨k', v'⟩
      by_cases he : k' = k
      · rw [show insertStore ((k', v') :: rest) k v = (k, v) :: rest from by
          rw [insertStore, if_pos he]]
        rw [lookupStore, if_pos rfl]
      · rw [show insertStore ((k', v') :: rest) k v =
            (k', v') :: insertStore rest k v from by
          rw [insertStore, if_neg he]]
        rw [lookupStore, if_neg he, ih]

theorem decodeStream_jsonOfStream (st : StreamF) :
    decodeStream (jsonOfStream st) = some st := rfl

theorem mapM_decodeStream (l : List StreamF) :
    (l.map jsonOfStream).mapM decodeStream = some l := by
  induction l with
  | nil => rfl
  | cons st rest ih =>
      simp only [List.map_cons, List.mapM_cons, decodeStream_jsonOfStream, ih]
      rfl

theorem decodeRecord_jsonOfRecord (r : EpisodeRecordF) :
    decodeRecord (jsonOfRecord r) = some r := by
  show (((r.streams.map jsonOfStream).mapM decodeStream).map
    (fun sts => EpisodeRecordF.mk r.name r.ident r.size sts)) = some r
  rw [mapM_decodeStream]
  rfl

theorem mapM_decodeRecords (inner : List (String × EpisodeRecordF)) :
    ((inner.map (fun q => (q.1, jsonOfRecord q.2))).mapM
      (fun q : String × Json =>
        (decodeRecord q.2).map (fun r => (q.1, r))) :
      Option (List (String × EpisodeRecordF))) = some inner := by
  induction inner with
  | nil => rfl
  | cons q rest ih =>
      simp only [List.map_cons, List.mapM_cons, decodeRecord_jsonOfRecord, ih]
      rfl

theorem decodeCatalog_jsonOfCatalog (c : SeriesCatalog) :
    decodeCatalog (jsonOfCatalog c) = some c := by
  show ((c.seasons.map (fun p : String × List (String × EpisodeRecordF) =>
      (p.1, Json.jobj (p.2.map (fun q : String × EpisodeRecordF => (q.1, jsonOfRecord q.2)))))).mapM
        (fun p : String × Json =>
          match p.2 with
          | .jobj inner =>
              ((inner.mapM (fun q : String × Json =>
                (decodeRecord q.2).map (fun r => (q.1, r))) :
                  Option (List (String × EpisodeRecordF)))).map
                (fun l => (p.1, l))
          | _ => none)).map
      (fun l => SeriesCatalog.mk c.name c.lastUpdated l) = some c
  have hmm : ∀ seas : List (String × List (String × EpisodeRecordF)),
      ((seas.map (fun p : String × List (String × EpisodeRecordF) =>
        (p.1, Json.jobj (p.2.map (fun q : String × EpisodeRecordF => (q.1, jsonOfRecord q.2)))))).mapM
          (fun p : String × Json =>
            match p.2 with
            | .jobj inner =>
                ((inner.mapM (fun q : String × Json =>
                  (decodeRecord q.2).map (fun r => (q.1, r))) :
                    Option (List (String × EpisodeRecordF)))).map
                  (fun l => (p.1, l))
            | _ => none) :
        Option (List (String × List (String × EpisodeRecordF)))) = some seas := by
    intro seas
    induction seas with
    | nil => rfl
    | cons p rest ih =>
        simp only [List.map_cons, List.mapM_cons, mapM_decodeRecords, ih]
        rfl
  rw [hmm]
  rfl

/-! ## Bucket invariants -/

/-- Every season has at least one episode and every episode bucket holds
at least one file. -/
abbrev BucketsWF (eps : Buckets) : Prop :=
  ∀ p ∈ eps, p.2 ≠ [] ∧ ∀ q ∈ p.2, q.2 ≠ []

theorem addToInner_wf {inner : List (String × List StreamF)} {en : String}
    {st : StreamF} (h : ∀ q ∈ inner, q.2 ≠ []) :
    ∀ q ∈ addToInner inner en st, q.2 ≠ [] := by
  induction inner with
  | nil =>
      intro q hq
      rw [addToInner] at hq
      rcases List.mem_singleton.mp hq with rfl
      simp
  | cons e rest ih =>
      intro q hq
      rw [addToInner] at hq
      by_cases he : e.1 = en
      · rw [if_pos he] at hq
        rcases List.mem_cons.mp hq with rfl | hq'
        · simp
        · exact h q (List.mem_cons_of_mem _ hq')
      · rw [if_neg he] at hq
        rcases List.mem_cons.mp hq with rfl | hq'
        · exact h _ (List.mem_cons_self _ _)
        · exact ih (fun x hx => h x (List.mem_cons_of_mem _ hx)) q hq'

theorem addToInner_ne_nil (inner : List (String × List StreamF))
    (en : String) (st : StreamF) : addToInner inner en st ≠ [] := by
  cases inner with
  | nil => simp [addToInner]
  | cons e rest =>
      rw [addToInner]
      by_cases he : e.1 = en
      · rw [if_pos he]; simp
      · rw [if_neg he]; simp

theorem addToBuckets_wf {eps : Buckets} {sn en : String} {st : StreamF}
    (h : BucketsWF eps) : BucketsWF (addToBuckets eps sn en st) := by
  induction eps with
  | nil =>
      intro p hp
      rw [addToBuckets] at hp
      rcases List.mem_singleton.mp hp with rfl
      exact ⟨by simp, by
        intro q hq
        rcases List.mem_singleton.mp hq with rfl
        simp⟩
  | cons e rest ih =>
      intro p hp
      rw [addToBuckets] at hp
      by_cases he : e.1 = sn
      · rw [if_pos he] at hp
        rcases List.mem_cons.mp hp with rfl | hp'
        · refine ⟨addToInner_ne_nil _ _ _, ?_⟩
          exact addToInner_wf (h e (List.mem_cons_self _ _)).2
        · exact h p (List.mem_cons_of_mem _ hp')
      · rw [if_neg he] at hp
        rcases List.mem_cons.mp hp with rfl | hp'
        · exact h _ (List.mem_cons_self _ _)
        · exact ih (fun x hx => h x (List.mem_cons_of_mem _ hx)) p hp'

theorem buildEpisodes_wf (series : String) (rs : List RawEntry) :
    BucketsWF (buildEpisodes series rs) := by
  unfold buildEpisodes
  have aux : ∀ (l : List RawEntry) (acc : Buckets), BucketsWF acc →
      BucketsWF (l.foldl
        (fun acc item =>
          match detectEpisodeInfo (entryName item) series with
          | none => acc
          | some (s, e) =>
              addToBuckets acc (toString s) (toString e) (streamOfEntry item))
        acc) := by
    intro l
    induction l with
    | nil => intro acc h; exact h
    | cons item rest ih =>
        intro acc h
        rw [List.foldl_cons]
        apply ih
        cases detectEpisodeInfo (entryName item) series with
        | none => exact h
        | some p =>
            rcases p with ⟨s, e⟩
            exact addToBuckets_wf h
  exact aux rs [] (by intro p hp; simp at hp)

/-! ## Claim theorems -/

/-- The character set the specification claims for `safe_id` output:
`[a-z0-9_.\- ]`. -/
def allowedChar (c : Char) : Bool :=
  ('a' ≤ c && c ≤ 'z') || ('0' ≤ c && c ≤ '9') ||
    c = '_' || c = '.' || c = '-' || c = ' '

/-- The per-character pipeline of `_safe_filename`: substitute
disallowed characters, lowercase, replace space. -/
def safeChar (c : Char) : Char :=
  (fun c => if c = ' ' then '_' else c)
    (pyLower
      (if pyWordChar c || c = '-' || c = '_' || c = '.' || c = ' ' then c
       else '_'))

theorem safeFilename_eq_map (name : String) :
    safeFilename name = String.mk (name.toList.map safeChar) := by
  simp only [safeFilename, safeChar, List.map_map]
  rfl

set_option maxRecDepth 4000 in
theorem safeChar_ascii_allowed : ∀ n, n < 128 →
    allowedChar (safeChar (Char.ofNat n)) = true := by
  decide

/-- C7 counterexample: on the non-ASCII input `"É"`, Python's Unicode
`\w` keeps the letter and `lower()` maps it to `é`, which lies outside
the claimed character set `[a-z0-9_.\- ]`. -/
theorem safe_id_nonascii_counterexample :
    safeFilename "É" = "é" ∧
    (safeFilename "É").toList.all allowedChar = false := by
  constructor
  · decide
  · decide

/-- C7 (amended): `safe_id` is deterministic and replaces every
character other than word characters, `-`, `_`, `.` and space with `_`,
lowercases, and replaces spaces with `_`; for inputs consisting of ASCII
characters its output contains no character outside `[a-z0-9_.\- ]`
(non-ASCII word characters survive, lowercased, so the charset bound
fails in general). -/
theorem safe_id_ascii_charset (name : String)
    (h : ∀ c ∈ name.toList, c.toNat < 128) :
    (safeFilename name).toList.all allowedChar = true := by
  rw [safeFilename_eq_map]
  show (name.toList.map safeChar).all allowedChar = true
  rw [List.all_map]
  rw [List.all_eq_true]
  intro c hc
  show allowedChar (safeChar c) = true
  have := safeChar_ascii_allowed c.toNat (h c hc)
  rwa [Char.ofNat_toNat] at this

/-- Witness for C7 (amended) at the ASCII input `"My Show: S01!"`. -/
theorem safe_id_ascii_charset_witness :
    (safeFilename "My Show: S01!").toList.all allowedChar = true :=
  safe_id_ascii_charset "My Show: S01!" (by decide)

/-- C8: `normalize` is idempotent, and the Czech title with diacritics,
spaces and mixed case normalizes identically to its
lowercase-dashed ASCII form.  (Determinism and purity are immediate in
this embedding: `pyNormalize` is a function of its input alone.) -/
theorem normalize_idempotent_insensitive :
    (∀ s : String, pyNormalize (pyNormalize s) = pyNormalize s) ∧
    pyNormalize "Ztráty a Nálezy" = pyNormalize "ztraty-a-nalezy" := by
  constructor
  · intro s
    show String.mk (normalizeL (String.mk (normalizeL s.toList)).toList) =
      String.mk (normalizeL s.toList)
    rw [show (String.mk (normalizeL s.toList)).toList = normalizeL s.toList
      from rfl]
    rw [normalizeL_idem]
  · decide

/-- C10: `_is_likely_episode` is false whenever the normalized series
name is not a substring of the normalized filename, regardless of any
pattern or keyword in the filename. -/
theorem not_likely_without_series_substring (filename series : String)
    (h : containsSub (normalizeL filename.toList)
      (normalizeL series.toList) = false) :
    isLikelyEpisode filename series = false := by
  have h' : containsSub (normalizeL filename.data)
      (normalizeL series.data) = false := h
  simp [isLikelyEpisode, h']

/-- Witness for C10: the filename carries both an episode pattern
(`E5`) and a keyword (`complete`), yet the series name is absent. -/
theorem not_likely_without_series_substring_witness :
    containsSub (normalizeL "Random E5 complete".toList)
      (normalizeL "Show".toList) = false ∧
    isLikelyEpisode "Random E5 complete" "Show" = false :=
  ⟨by decide, not_likely_without_series_substring _ _ (by decide)⟩

/-- C5 counterexample: Python's `str.replace` removes all occurrences,
so for filename `"ab ab e5"` and series `"ab"` the code's `cleaned`
(`"e5"`) differs from the spec's remove-first-occurrence reading
(`"ab e5"`). -/
theorem cleaned_removes_all_counterexample :
    detectCleaned "ab ab e5" "ab" ≠ cleanedSpecFirst "ab ab e5" "ab" ∧
    detectCleaned "ab ab e5" "ab" = "e5".toList ∧
    cleanedSpecFirst "ab ab e5" "ab" = "ab e5".toList := by
  refine ⟨by decide, by decide, by decide⟩

/-- C5 (amended): `detect` computes `cleaned` by removing every
non-overlapping occurrence of the normalized series name (Python
`str.replace` semantics), then trimming; when at most one occurrence is
present — no occurrence remains after removing the first — this agrees
with removing only the first occurrence. -/
theorem cleaned_agrees_when_single_occurrence (filename series : String)
    (h : containsSub
      (removeFirstOcc (normalizeL filename.toList) (normalizeL series.toList))
      (normalizeL series.toList) = false) :
    detectCleaned filename series = cleanedSpecFirst filename series := by
  unfold detectCleaned cleanedSpecFirst
  rw [pyReplace_eq_removeFirstOcc h]

/-- Witness for C5 (amended) at `"Show E5"` / `"Show"`. -/
theorem cleaned_agrees_when_single_occurrence_witness :
    containsSub
      (removeFirstOcc (normalizeL "Show E5".toList) (normalizeL "Show".toList))
      (normalizeL "Show".toList) = false ∧
    detectCleaned "Show E5" "Show" = cleanedSpecFirst "Show E5" "Show" :=
  ⟨by decide, cleaned_agrees_when_single_occurrence _ _ (by decide)⟩

/-- C9: for series `"Show"` the raw entries `"Show Ep3"` and
`"Show Episode 3"` both classify to season 1 episode 3 (via patterns 4
and 3), both pass the pre-filter, and grouping merges them into one
record whose streams hold the two entries in discovery order with the
first-discovered entry as canonical. -/
theorem show_ep3_merge_scenario :
    detectEpisodeInfo "Show Ep3" "Show" = some (1, 3) ∧
    detectEpisodeInfo "Show Episode 3" "Show" = some (1, 3) ∧
    gatherStep "Show" []
      [[("name", "Show Ep3"), ("ident", "i1"), ("size", "700")],
       [("name", "Show Episode 3"), ("ident", "i2"), ("size", "800")]] =
      [[("name", "Show Ep3"), ("ident", "i1"), ("size", "700")],
       [("name", "Show Episode 3"), ("ident", "i2"), ("size", "800")]] ∧
    convertSeasons (buildEpisodes "Show"
      [[("name", "Show Ep3"), ("ident", "i1"), ("size", "700")],
       [("name", "Show Episode 3"), ("ident", "i2"), ("size", "800")]]) =
      [("1", [("3", ⟨"Show Ep3", "i1", "700",
        [⟨"Show Ep3", "i1", "700"⟩, ⟨"Show Episode 3", "i2", "800"⟩]⟩)])] := by
  refine ⟨by decide, by decide, by decide, by decide⟩

/-- C6: every episode record produced by classification has a non-empty
`streams` list whose first element carries the record's own name and
ident (the first-discovered file becomes both the record and the first
stream). -/
theorem episode_streams_invariant (series : String) (rs : List RawEntry)
    (sn en : String) (inner : List (String × EpisodeRecordF))
    (r : EpisodeRecordF)
    (h1 : (sn, inner) ∈ convertSeasons (buildEpisodes series rs))
    (h2 : (en, r) ∈ inner) :
    r.streams ≠ [] ∧
    r.streams.head?.map StreamF.name = some r.name ∧
    r.streams.head?.map StreamF.ident = some r.ident := by
  unfold convertSeasons at h1
  rcases List.mem_map.mp h1 with ⟨p, hp, heq⟩
  have hinner : p.2.map (fun q => (q.1, mkRecord q.2)) = inner :=
    congrArg Prod.snd heq
  rw [← hinner] at h2
  rcases List.mem_map.mp h2 with ⟨q, hq, heq2⟩
  have hr : mkRecord q.2 = r := congrArg Prod.snd heq2
  have hwf := (buildEpisodes_wf series rs p hp).2 q hq
  rw [← hr]
  cases hq2 : q.2 with
  | nil => exact absurd hq2 hwf
  | cons st tl =>
      refine ⟨by simp [mkRecord], by simp [mkRecord], by simp [mkRecord]⟩

/-- Witness for C6 on a concrete one-entry classification (size absent,
so it defaults to `"0"`). -/
theorem episode_streams_invariant_witness :
    (⟨"Show Ep3", "i1", "0", [⟨"Show Ep3", "i1", "0"⟩]⟩ :
      EpisodeRecordF).streams ≠ [] ∧
    (⟨"Show Ep3", "i1", "0", [⟨"Show Ep3", "i1", "0"⟩]⟩ :
      EpisodeRecordF).streams.head?.map StreamF.name = some "Show Ep3" ∧
    (⟨"Show Ep3", "i1", "0", [⟨"Show Ep3", "i1", "0"⟩]⟩ :
      EpisodeRecordF).streams.head?.map StreamF.ident = some "i1" :=
  episode_streams_invariant "Show" [[("name", "Show Ep3"), ("ident", "i1")]]
    "1" "3" [("3", ⟨"Show Ep3", "i1", "0", [⟨"Show Ep3", "i1", "0"⟩]⟩)]
    ⟨"Show Ep3", "i1", "0", [⟨"Show Ep3", "i1", "0"⟩]⟩
    (by decide) (by decide)

/-- C4 counterexample: a malformed response body raises out of
`_perform_search` and aborts the whole multi-query search instead of
yielding an empty result set for that query; in the second scenario the
first five queries succeeded and the remaining five are never issued. -/
theorem malformed_response_aborts_search :
    searchResults "Show" (fun _ => PResponse.badXml) = .error () ∧
    searchResults "Show"
      (fun q => if q = "Show season" then PResponse.badXml
        else .xmlDoc (.node "response" "" [.node "status" "OK" []])) =
      .error () := by
  exact ⟨rfl, rfl⟩

/-- C4 (amended): a response with a non-OK status yields an empty result
set for that query only and the remaining queries proceed unchanged; a
malformed (unparseable) response body, however, raises and aborts the
whole search. -/
theorem non_ok_query_skipped :
    (∀ (series : String) (api : String → PResponse) (acc : List RawEntry)
        (q : String) (qs : List String) (root : XmlElem),
        api q = .xmlDoc root → statusOK root = false →
        gatherFrom series api acc (q :: qs) = gatherFrom series api acc qs) ∧
    (∀ (series : String) (api : String → PResponse) (acc : List RawEntry)
        (q : String) (qs : List String),
        api q = .badXml →
        gatherFrom series api acc (q :: qs) = .error ()) := by
  constructor
  · intro series api acc q qs root hapi hstatus
    rw [gatherFrom, hapi]
    show (match performSearch (PResponse.xmlDoc root) with
      | .error e => .error e
      | .ok results => gatherFrom series api (gatherStep series acc results) qs) =
      gatherFrom series api acc qs
    rw [performSearch, hstatus]
    show gatherFrom series api (gatherStep series acc []) qs =
      gatherFrom series api acc qs
    rfl
  · intro series api acc q qs hapi
    rw [gatherFrom, hapi]
    rfl

/-- Witness for C4 (amended): one non-OK query is skipped; one bad query
aborts. -/
theorem non_ok_query_skipped_witness :
    gatherFrom "Show"
      (fun _ => .xmlDoc (.node "response" "" [.node "status" "FATAL" []]))
      [] ["q"] =
      gatherFrom "Show"
        (fun _ => .xmlDoc (.node "response" "" [.node "status" "FATAL" []]))
        [] [] ∧
    gatherFrom "Show" (fun _ => PResponse.badXml) [] ["q"] = .error () :=
  ⟨non_ok_query_skipped.1 "Show" _ [] "q" []
      (.node "response" "" [.node "status" "FATAL" []]) rfl (by decide),
   non_ok_query_skipped.2 "Show" _ [] "q" [] rfl⟩

/-- C1: saving a tree-shaped catalog and loading it back returns its
JSON document, which reads back field for field as the saved catalog.
(The textual layer is abstracted to JSON values; Python's `json.loads`
inverts `json.dumps` there, so representability of the text is the only
caveat, and it is invisible at this level.) -/
theorem catalog_store_roundtrip (store : Store) (name : String)
    (c : SeriesCatalog) :
    loadSeriesData
      (saveSeriesData store name (fun _ => none) 1 (hvalOfCatalog c)) name =
      some (jsonOfCatalog c) ∧
    decodeCatalog (jsonOfCatalog c) = some c := by
  constructor
  · simp only [saveSeriesData, loadSeriesData, serV_hvalOfCatalog,
      lookupStore_insertStore]
  · exact decodeCatalog_jsonOfCatalog c

/-- C3: `_save_series_data` truncates the target file before
serializing, so a serialization failure leaves the previously saved
catalog file empty rather than unchanged. -/
theorem save_truncates_on_serialize_failure (store : Store) (name : String)
    (heap : Nat → Option HVal) (fuel : Nat) (root : HVal)
    (prev : FileContent)
    (hprev : lookupStore store (catalogPath name) = some prev)
    (hne : prev ≠ .emptyFile)
    (hser : serV heap fuel [] root = none) :
    lookupStore (saveSeriesData store name heap fuel root)
      (catalogPath name) = some FileContent.emptyFile ∧
    lookupStore (saveSeriesData store name heap fuel root)
      (catalogPath name) ≠ lookupStore store (catalogPath name) := by
  have hafter : lookupStore (saveSeriesData store name heap fuel root)
      (catalogPath name) = some FileContent.emptyFile := by
    simp only [saveSeriesData, hser]
    exact lookupStore_insertStore _ _ _
  refine ⟨hafter, ?_⟩
  rw [hafter, hprev]
  intro h
  exact hne (Option.some.inj h).symm

/-- Witness for C3: a concrete store holding an old catalog for `"x"`,
and the two-object cyclic heap whose serialization fails. -/
theorem save_truncates_on_serialize_failure_witness :
    lookupStore
      (saveSeriesData [(catalogPath "x", .jsonFile (.jstr "old"))] "x"
        (fun a => if a = 0 then some (.hdictV [("streams", .href 1)])
          else if a = 1 then some (.hlistV [.href 0]) else none)
        5 (.href 0))
      (catalogPath "x") = some FileContent.emptyFile :=
  (save_truncates_on_serialize_failure
    [(catalogPath "x", .jsonFile (.jstr "old"))] "x"
    (fun a => if a = 0 then some (.hdictV [("streams", .href 1)])
      else if a = 1 then some (.hlistV [.href 0]) else none)
    5 (.href 0) (.jsonFile (.jstr "old"))
    rfl
    (by intro h; exact FileContent.noConfusion h)
    (@serV_cycle
      (fun a => if a = 0 then some (.hdictV [("streams", .href 1)])
        else if a = 1 then some (.hlistV [.href 0]) else none)
      0 1 [("streams", .href 1)] [] rfl (by simp) rfl 5 [])).1

/-- C2: whenever a `search_series` call classifies at least one episode,
(1) each (season, episode) bucket's record dict is the first element of
its own `streams` list (the mutual reference installed by line 125),
(2) the resulting catalog fails JSON serialization for every fuel (the
circular-reference check fires), and (3) the save leaves only the
truncated file while `search_series` still returns the catalog without
signaling any error. -/
theorem selfref_streams_block_save (store : Store) (series date : String)
    (api : String → PResponse) (rs : List RawEntry)
    (hres : searchResults series api = .ok rs)
    (hne : buildEpisodes series rs ≠ []) :
    (∀ j st tl,
        (flattenBuckets (buildEpisodes series rs)).get? j = some (st :: tl) →
        heapOfEpisodes (buildEpisodes series rs) (2 * j) =
          some (mainDictV st (2 * j + 1)) ∧
        heapOfEpisodes (buildEpisodes series rs) (2 * j + 1) =
          some (.hlistV (.href (2 * j) :: tl.map hvalOfStream))) ∧
    (∀ fuel, serV (heapOfEpisodes (buildEpisodes series rs)) fuel []
        (rootVal series date (buildEpisodes series rs)) = none) ∧
    searchSeries store series date api =
      .ok (insertStore store (catalogPath series) .emptyFile,
        rootVal series date (buildEpisodes series rs)) := by
  have haliases : ∀ j st tl,
      (flattenBuckets (buildEpisodes series rs)).get? j = some (st :: tl) →
      heapOfEpisodes (buildEpisodes series rs) (2 * j) =
        some (mainDictV st (2 * j + 1)) ∧
      heapOfEpisodes (buildEpisodes series rs) (2 * j + 1) =
        some (.hlistV (.href (2 * j) :: tl.map hvalOfStream)) := by
    intro j st tl hj
    have hd0 : 2 * j / 2 = j := by omega
    have hm0 : 2 * j % 2 = 0 := by omega
    have hd1 : (2 * j + 1) / 2 = j := by omega
    have hm1 : (2 * j + 1) % 2 = 1 := by omega
    have hsub : 2 * j + 1 - 1 = 2 * j := by omega
    constructor
    · unfold heapOfEpisodes
      rw [hd0, hj]
      simp [hm0]
    · unfold heapOfEpisodes
      rw [hd1, hj]
      simp [hm1, hsub]
  obtain ⟨p, rest, hshape⟩ : ∃ p rest, buildEpisodes series rs = p :: rest := by
    cases h : buildEpisodes series rs with
    | nil => exact absurd h hne
    | cons p r => exact ⟨p, r, rfl⟩
  obtain ⟨sn, inner⟩ := p
  have hwf := buildEpisodes_wf series rs
  have hpmem : (sn, inner) ∈ buildEpisodes series rs := by
    rw [hshape]; exact List.mem_cons_self _ _
  obtain ⟨q, innerRest, hinner⟩ :
      ∃ q innerRest, inner = q :: innerRest := by
    cases h : inner with
    | nil => exact absurd h (hwf _ hpmem).1
    | cons q ir => exact ⟨q, ir, rfl⟩
  obtain ⟨en, files⟩ := q
  have hqmem : (en, files) ∈ inner := by
    rw [hinner]; exact List.mem_cons_self _ _
  obtain ⟨st, tl, hfiles⟩ : ∃ st tl, files = st :: tl := by
    cases h : files with
    | nil => exact absurd h ((hwf _ hpmem).2 _ hqmem)
    | cons st tl => exact ⟨st, tl, rfl⟩
  have hflat : (flattenBuckets (buildEpisodes series rs)).get? 0 =
      some (st :: tl) := by
    rw [hshape, hinner, hfiles]
    rfl
  have h0 : heapOfEpisodes (buildEpisodes series rs) 0 =
      some (mainDictV st 1) := by
    have := (haliases 0 st tl hflat).1
    simpa using this
  have h1 : heapOfEpisodes (buildEpisodes series rs) 1 =
      some (.hlistV (.href 0 :: tl.map hvalOfStream)) := by
    have := (haliases 0 st tl hflat).2
    simpa using this
  have hcyc : ∀ fuel act,
      serV (heapOfEpisodes (buildEpisodes series rs)) fuel act (.href 0) =
        none :=
    serV_cycle h0 (by simp [mainDictV]) h1
  have hserfail : ∀ fuel,
      serV (heapOfEpisodes (buildEpisodes series rs)) fuel []
        (rootVal series date (buildEpisodes series rs)) = none := by
    intro fuel
    have hep : serV (heapOfEpisodes (buildEpisodes series rs)) fuel []
        (.hdictV (epRefs 0 inner)) = none := by
      rw [serV]
      have hmem : (en, HVal.href 0) ∈ epRefs 0 inner := by
        rw [hinner]
        rw [epRefs]
        simp
      rw [serVEntries_none_of_mem hmem (hcyc fuel [])]
      rfl
    have hseas : serV (heapOfEpisodes (buildEpisodes series rs)) fuel []
        (.hdictV (seasonRefs 0 (buildEpisodes series rs))) = none := by
      rw [serV]
      have hmem : (sn, HVal.hdictV (epRefs 0 inner)) ∈
          seasonRefs 0 (buildEpisodes series rs) := by
        rw [hshape]
        rw [seasonRefs]
        exact List.mem_cons_self _ _
      rw [serVEntries_none_of_mem hmem hep]
      rfl
    rw [rootVal, serV]
    have hmem : ("seasons",
        HVal.hdictV (seasonRefs 0 (buildEpisodes series rs))) ∈
        [("name", HVal.hstr series), ("last_updated", HVal.hstr date),
         ("seasons", HVal.hdictV (seasonRefs 0 (buildEpisodes series rs)))] := by
      simp
    rw [serVEntries_none_of_mem hmem hseas]
    rfl
  refine ⟨haliases, hserfail, ?_⟩
  unfold searchSeries
  rw [hres]
  show Except.ok (saveSeriesData store series
      (heapOfEpisodes (buildEpisodes series rs))
      (serFuel (buildEpisodes series rs))
      (rootVal series date (buildEpisodes series rs)),
    rootVal series date (buildEpisodes series rs)) = _
  unfold saveSeriesData
  rw [hserfail (serFuel (buildEpisodes series rs))]

/-- Witness for C2: a one-file collaborator answer classifies one
episode; the save leaves the truncated file and the cyclic catalog is
returned. -/
theorem selfref_streams_block_save_witness :
    searchSeries [] "Show" "5.6.2023"
      (fun _ => .xmlDoc (.node "response" ""
        [.node "status" "OK" [],
         .node "file" "" [.node "name" "Show E5" [], .node "ident" "i1" []]])) =
      .ok (insertStore [] (catalogPath "Show") .emptyFile,
        rootVal "Show" "5.6.2023"
          (buildEpisodes "Show" [[("name", "Show E5"), ("ident", "i1")]])) :=
  (selfref_streams_block_save [] "Show" "5.6.2023"
    (fun _ => .xmlDoc (.node "response" ""
      [.node "status" "OK" [],
       .node "file" "" [.node "name" "Show E5" [], .node "ident" "i1" []]]))
    [[("name", "Show E5"), ("ident", "i1")]]
    rfl (by decide)).2.2

end SeriesManager
